import Mathlib

/-!
Shallow embedding of the qbittorrent-operator core logic:
the magnet-URI hash extraction (internal/qbittorrent/utils.go),
the authenticated-session pool (internal/qbittorrent/pool.go),
the mutually-exclusive status conditions shared by the three
controllers, the Torrent controller's client resolution,
steady-state reconcile and deletion handling
(internal/controller/torrent_controller.go), and the
TorrentClientConfiguration controller's connectivity reconcile
(internal/controller/torrentclientconfiguration_controller.go).

Go strings are modelled as `List Char`; time instants and durations as
`Nat` (Go's `time.Time` / `time.Duration`; subtraction is truncated,
which agrees with the source because observed instants never precede
an entry's recorded timestamp).  Remote qBittorrent calls (Login,
GetTorrentInfo, AddTorrent, DeleteTorrent, Ping) and Kubernetes
Get/List results are collaborators behind interfaces in the source and
are modelled as explicit environment data.
-/

namespace QBT

/-! ### Go strings as char lists, and `strings.Index` -/

abbrev Str := List Char

/-- `strings.HasPrefix`-style test used to realise `strings.Index`. -/
def hasPrefixStr : Str → Str → Bool
  | [], _ => true
  | _ :: _, [] => false
  | a :: as, b :: bs => a = b && hasPrefixStr as bs

/-- Embedding of Go `strings.Index needle hay`: index of the first
occurrence of `needle` in `hay` (`none` for Go's `-1`). -/
def strIndex (needle : Str) : Str → Option Nat
  | [] => if hasPrefixStr needle [] then some 0 else none
  | c :: t =>
    if hasPrefixStr needle (c :: t) then some 0
    else (strIndex needle t).map (· + 1)

/-! ### internal/qbittorrent/utils.go -/

def btihMarker : Str := "btih:".toList

/-- Embedding of `GetTorrentHash` (utils.go): find the first `btih:`;
the hash runs from just after it up to the next `&` or end of string;
a missing marker, or a marker at the very end, is an error. -/
def GetTorrentHash (magnetURI : Str) : Except String Str :=
  match strIndex btihMarker magnetURI with
  | none => .error "'btih:' not found"
  | some btihIndex =>
    let hashStart := btihIndex + 5
    if hashStart ≥ magnetURI.length then
      .error "no hash after 'btih:'"
    else
      match strIndex ['&'] (magnetURI.drop hashStart) with
      | none => .ok (magnetURI.drop hashStart)
      | some hashEnd => .ok ((magnetURI.drop hashStart).take hashEnd)

/-! ### internal/qbittorrent/pool.go -/

/-- A live qBittorrent session handle.  In the source this is a
`*Client` produced by `NewClient(url)`; pointer identity is modelled
by the allocation token `id`. -/
structure Client where
  id : Nat
  url : String
deriving DecidableEq, Repr

structure PoolEntry where
  client : Client
  credHash : String
  lastUsed : Nat
deriving DecidableEq, Repr

structure ClientPool where
  clients : List (String × PoolEntry)
  ttl : Nat
deriving DecidableEq, Repr

/-- `hashCredentials` computes sha256 of `url|username|password`; the
spec notes it is only a cache key, not a security boundary, so it is
modelled by the (collision-free) preimage of that sha256 call. -/
def hashCredentials (url username password : String) : String :=
  url ++ "|" ++ username ++ "|" ++ password

def lookupEntry : List (String × PoolEntry) → String → Option PoolEntry
  | [], _ => none
  | (k, v) :: t, key => if k = key then some v else lookupEntry t key

/-- Go map insert: replace the entry at the key, or add it. -/
def setEntry : List (String × PoolEntry) → String → PoolEntry → List (String × PoolEntry)
  | [], key, v => [(key, v)]
  | (k, w) :: t, key, v =>
    if k = key then (key, v) :: t else (k, w) :: setEntry t key v

/-- Go map delete. -/
def eraseEntry : List (String × PoolEntry) → String → List (String × PoolEntry)
  | [], _ => []
  | (k, v) :: t, key => if k = key then eraseEntry t key else (k, v) :: eraseEntry t key

/-- The hit test of `GetOrCreate`: `entry, exists := p.clients[credHash];
if exists && entry.credHash == credHash`. -/
def poolHit (clients : List (String × PoolEntry)) (credHash : String) : Option PoolEntry :=
  match lookupEntry clients credHash with
  | some entry => if entry.credHash = credHash then some entry else none
  | none => none

instance decEqExcept {ε α : Type} [DecidableEq ε] [DecidableEq α] :
    DecidableEq (Except ε α) := fun a b =>
  match a, b with
  | .error x, .error y =>
    if h : x = y then .isTrue (by rw [h]) else .isFalse (by intro hc; cases hc; exact h rfl)
  | .ok x, .ok y =>
    if h : x = y then .isTrue (by rw [h]) else .isFalse (by intro hc; cases hc; exact h rfl)
  | .error _, .ok _ => .isFalse (by intro hc; cases hc)
  | .ok _, .error _ => .isFalse (by intro hc; cases hc)

structure GetOrCreateResult where
  result : Except String Client
  pool : ClientPool
  /-- Instrumentation: `true` exactly when the source's `Login` branch
  (the key-miss path) executed. -/
  invokedLogin : Bool

/-- Embedding of `ClientPool.GetOrCreate`.  `now` is the value of
`time.Now()` during the call, `loginResult` the outcome of
`client.Login` (a remote collaborator), and `freshId` the allocation
token of the `NewClient` pointer. -/
def getOrCreate (p : ClientPool) (now : Nat) (url username password : String)
    (loginResult : Except String Unit) (freshId : Nat) : GetOrCreateResult :=
  let credHash := hashCredentials url username password
  match poolHit p.clients credHash with
  | some entry =>
    { result := .ok entry.client,
      pool := { p with clients := setEntry p.clients credHash { entry with lastUsed := now } },
      invokedLogin := false }
  | none =>
    match loginResult with
    | .error e =>
      { result := .error ("failed to login for credentials[" ++ username ++ ", " ++
          password ++ "] url[" ++ url ++ "]: " ++ e),
        pool := p,
        invokedLogin := true }
    | .ok _ =>
      let client : Client := { id := freshId, url := url }
      let inserted := setEntry p.clients credHash
        { client := client, credHash := credHash, lastUsed := now }
      { result := .ok client,
        pool := { p with clients := inserted },
        invokedLogin := true }

/-- Embedding of `ClientPool.Remove`. -/
def removeKey (p : ClientPool) (credHash : String) : ClientPool :=
  { p with clients := eraseEntry p.clients credHash }

/-- Embedding of `ClientPool.Cleanup` at instant `now`: drop every
entry with `now.Sub(entry.lastUsed) > p.ttl`. -/
def cleanup (p : ClientPool) (now : Nat) : ClientPool :=
  { p with clients := p.clients.filter (fun kv => decide (now - kv.2.lastUsed ≤ p.ttl)) }

/-- Embedding of the body of the `scheduleRemove` timer when it fires
at instant `fireTime`: re-check the entry's last-used time and remove
only if still idle strictly longer than the TTL. -/
def scheduleRemoveFire (p : ClientPool) (fireTime : Nat) (credHash : String) : ClientPool :=
  match lookupEntry p.clients credHash with
  | none => p
  | some entry =>
    if fireTime - entry.lastUsed > p.ttl then removeKey p credHash else p

/-- The two eviction mechanisms that can run between two
`GetOrCreate` calls: an explicit sweep, or a per-entry timer firing. -/
inductive SweepOp where
  | cleanupAt (now : Nat)
  | fireAt (now : Nat) (credHash : String)
deriving DecidableEq, Repr

def applySweep (p : ClientPool) : SweepOp → ClientPool
  | .cleanupAt now => cleanup p now
  | .fireAt now key => scheduleRemoveFire p now key

def sweepTime : SweepOp → Nat
  | .cleanupAt now => now
  | .fireAt now _ => now

/-! ### Status conditions (k8s `meta.SetStatusCondition` /
`meta.RemoveStatusCondition` as used by all three controllers) -/

/-- `metav1.Condition`; `cstatus = true` is `metav1.ConditionTrue`
(the controllers only ever write `ConditionTrue`). -/
structure Condition where
  ctype : String
  cstatus : Bool
  reason : String
  message : String
  lastTransitionTime : Nat
deriving DecidableEq, Repr

def typeAvailable : String := "Available"
def typeDegraded : String := "Degraded"

/-- `meta.FindStatusCondition`: first condition of the given type. -/
def findStatusCondition : List Condition → String → Option Condition
  | [], _ => none
  | c :: t, ty => if c.ctype = ty then some c else findStatusCondition t ty

/-- The in-place update `meta.SetStatusCondition` performs on the
condition found for the type: status/reason/message are overwritten and
the transition time advances only when the status actually changed. -/
def mergeCondition (c newc : Condition) : Condition :=
  { ctype := c.ctype,
    cstatus := newc.cstatus,
    reason := newc.reason,
    message := newc.message,
    lastTransitionTime :=
      if c.cstatus ≠ newc.cstatus then newc.lastTransitionTime else c.lastTransitionTime }

def updateFirstCondition : List Condition → Condition → List Condition
  | [], _ => []
  | c :: t, newc =>
    if c.ctype = newc.ctype then mergeCondition c newc :: t
    else c :: updateFirstCondition t newc

/-- `meta.SetStatusCondition`: update the existing condition of that
type, or append the new one. -/
def setStatusCondition (conds : List Condition) (newc : Condition) : List Condition :=
  match findStatusCondition conds newc.ctype with
  | none => conds ++ [newc]
  | some _ => updateFirstCondition conds newc

/-- `meta.RemoveStatusCondition`: drop every condition of that type. -/
def removeStatusCondition : List Condition → String → List Condition
  | [], _ => []
  | c :: t, ty =>
    if c.ctype = ty then removeStatusCondition t ty else c :: removeStatusCondition t ty

/-- The `setAvailableCondition` helper shared (textually) by the
Torrent, TorrentClientConfiguration and TorrentServer reconcilers:
upsert Available=True and clear Degraded.  `now` is the
`LastTransitionTime` stamped at the call. -/
def setAvailableCondition (conds : List Condition) (reason message : String) (now : Nat) :
    List Condition :=
  removeStatusCondition
    (setStatusCondition conds
      { ctype := typeAvailable, cstatus := true, reason := reason,
        message := message, lastTransitionTime := now })
    typeDegraded

/-- The `setDegradedCondition` helper of the same three reconcilers:
upsert Degraded=True and clear Available. -/
def setDegradedCondition (conds : List Condition) (reason message : String) (now : Nat) :
    List Condition :=
  removeStatusCondition
    (setStatusCondition conds
      { ctype := typeDegraded, cstatus := true, reason := reason,
        message := message, lastTransitionTime := now })
    typeAvailable

/-- One condition-setting call, as issued by any of the reconcilers. -/
inductive CondCall where
  | available (reason message : String) (now : Nat)
  | degraded (reason message : String) (now : Nat)
deriving DecidableEq, Repr

def applyCondCall (conds : List Condition) : CondCall → List Condition
  | .available r m n => setAvailableCondition conds r m n
  | .degraded r m n => setDegradedCondition conds r m n

/-- The condition kind a call writes. -/
def callKind : CondCall → String
  | .available _ _ _ => typeAvailable
  | .degraded _ _ _ => typeDegraded

/-- Reachable condition-list states: empty (a fresh object) or a
single Available/Degraded condition. -/
def condInvariant (conds : List Condition) : Prop :=
  conds = [] ∨ ∃ c, conds = [c] ∧ (c.ctype = typeAvailable ∨ c.ctype = typeDegraded)

/-! ### API object models (api/v1alpha1) -/

structure SecretData where
  username : Option String
  password : Option String
deriving DecidableEq, Repr

/-- A `corev1.Secret` restricted to the two keys the operator reads;
`none` models an absent map key (Go indexing then yields `""`). -/
structure Secret where
  name : String
  data : SecretData
deriving DecidableEq, Repr

structure TCCSpec where
  url : String
  credentialsSecretName : String
  checkInterval : String
deriving DecidableEq, Repr

structure TCCStatus where
  connected : Bool
  lastChecked : Option Nat
  qbittorrentVersion : String
  conditions : List Condition
deriving DecidableEq, Repr

/-- `TorrentClientConfiguration`. -/
structure TCC where
  name : String
  nsName : String
  spec : TCCSpec
  status : TCCStatus
deriving DecidableEq, Repr

structure TorrentSpec where
  magnetURI : Str
  clientConfigRef : Option String
  deleteFilesOnRemoval : Option Bool
deriving DecidableEq, Repr

structure TorrentStatus where
  contentPath : String
  addedOn : Int
  state : String
  totalSize : Int
  name : String
  timeActive : Int
  amountLeft : Int
  hash : Str
  clientConfigurationName : String
  conditions : List Condition
deriving DecidableEq, Repr

structure Torrent where
  name : String
  nsName : String
  finalizers : List String
  spec : TorrentSpec
  status : TorrentStatus
deriving DecidableEq, Repr

def TorrentFinalizer : String := "torrent.qbittorrent.io/finalizer"

/-- `qbittorrent.TorrentInfo` as read by `updateTorrentStatus`. -/
structure TorrentInfo where
  hash : Str
  name : String
  state : String
  totalSize : Int
  contentPath : String
  addedOn : Int
  timeActive : Int
  amountLeft : Int
deriving DecidableEq, Repr

/-! ### Torrent controller (internal/controller/torrent_controller.go)

The Kubernetes API reads and the remote qBittorrent calls performed
during one reconcile are collaborators; their outcomes for this
reconcile form the environment.  `getTCC` is `r.Get` on a named
TorrentClientConfiguration in the Torrent's namespace (`none` is the
NotFound error), `tccList` the `r.List` result, `getSecret` the
`r.Get` on a named Secret.  Status/object writes (`r.Update`,
`r.Status().Update`) are modelled as succeeding; the source only logs
their failures on the paths the claims concern. -/

structure TorrentEnv where
  getTCC : String → Option TCC
  tccList : List TCC
  getSecret : String → Option Secret
  loginResult : Except String Unit
  freshId : Nat
  getInfoResult : Str → Except String (Option TorrentInfo)
  addResult : Str → Except String Unit
  deleteResult : Str → Bool → Except String Unit

/-- `ctrl.Result` plus the returned `error`: `requeueAfter` in seconds
(`0` is the zero `ctrl.Result`). -/
structure ReconcileOutcome where
  requeueAfter : Nat
  err : Option String
deriving DecidableEq, Repr

/-- Steps 1.2–4 of `getQBTClient`: list-based auto-discovery,
availability check, status recording, secret fetch and pool lookup.
In the source this code runs unconditionally after the
explicit-reference block (whose fetched TCC is discarded because it is
bound to a shadowed local variable). -/
def getQBTClientResolve (pool : ClientPool) (t : Torrent) (env : TorrentEnv) (now : Nat) :
    Torrent × ClientPool × Except String Client :=
  match env.tccList with
  | [] =>
    (t, pool, .error ("no TorrentClientConfiguration found in namespace " ++ t.nsName))
  | [tcc] =>
    -- 2. TCC must be available to connect to qBittorrent
    match findStatusCondition tcc.status.conditions typeAvailable with
    | none =>
      (t, pool,
        .error ("TorrentClientConfiguration \"" ++ tcc.name ++ "\" is not available"))
    | some cond =>
      if cond.cstatus ≠ true then
        (t, pool,
          .error ("TorrentClientConfiguration \"" ++ tcc.name ++ "\" is not available"))
      else
        -- 3. Set the discovered TCC in the status
        let t' := { t with status := { t.status with clientConfigurationName := tcc.name } }
        -- 4. Get credentials and the related connection
        match env.getSecret tcc.spec.credentialsSecretName with
        | none =>
          (t', pool,
            .error ("failed to get credentials secret \"" ++
              tcc.spec.credentialsSecretName ++ "\": not found"))
        | some secret =>
          let r := getOrCreate pool now tcc.spec.url
            (secret.data.username.getD "") (secret.data.password.getD "")
            env.loginResult env.freshId
          (t', r.pool, r.result)
  | _ :: _ :: _ =>
    (t, pool,
      .error ("multiple TorrentClientConfigurations found in namespace " ++ t.nsName ++
        "; set spec.clientConfigRef to select one"))

/-- Embedding of `getQBTClient`, the TCC resolution for a Torrent.
Mirrors the source faithfully, including the fact that the
explicit-reference branch binds its fetched TCC to a local variable
(`tcc := ...`) that shadows the outer `tcc`, so its value is discarded
and the list-based auto-discovery (`getQBTClientResolve`) runs
regardless.  Returns the (possibly updated) Torrent, the updated pool,
and the client or error. -/
def getQBTClient (pool : ClientPool) (t : Torrent) (env : TorrentEnv) (now : Nat) :
    Torrent × ClientPool × Except String Client :=
  match t.spec.clientConfigRef with
  | some refName =>
    -- 1.1. fetch the referenced TCC into the shadowed local
    match env.getTCC refName with
    | none =>
      (t, pool,
        .error ("referenced TorrentClientConfiguration \"" ++ refName ++
          "\" not found: not found"))
    | some _ => getQBTClientResolve pool t env now
  | none => getQBTClientResolve pool t env now

/-- `controllerutil.RemoveFinalizer`. -/
def removeFinalizer (t : Torrent) : Torrent :=
  { t with finalizers := t.finalizers.filter (fun f => f ≠ TorrentFinalizer) }

/-- Embedding of `handleDeletion` for a Torrent whose deletion
timestamp is set.  The final `r.Update` persisting the finalizer
removal is modelled as succeeding. -/
def handleDeletion (pool : ClientPool) (t : Torrent) (env : TorrentEnv) (now : Nat) :
    Torrent × ClientPool × ReconcileOutcome :=
  if t.status.hash ≠ [] then
    let (t', pool', clientResult) := getQBTClient pool t env now
    match clientResult with
    | .error _ =>
      -- failed to get a client for deletion: remove the finalizer anyway
      (removeFinalizer t', pool', { requeueAfter := 0, err := none })
    | .ok _ =>
      let deleteFiles := t'.spec.deleteFilesOnRemoval.getD true
      match env.deleteResult t'.status.hash deleteFiles with
      | .error e =>
        ({ t' with status := { t'.status with
            conditions := setDegradedCondition t'.status.conditions "FailedToDeleteTorrent" e now } },
          pool', { requeueAfter := 10, err := none })
      | .ok _ =>
        (removeFinalizer t', pool', { requeueAfter := 0, err := none })
  else
    (removeFinalizer t, pool, { requeueAfter := 0, err := none })

/-- Embedding of `updateTorrentStatus`: copy each observed field of the
qBittorrent torrent into the status when it differs, reporting whether
anything changed.  The per-field conditional writes of the source
compose to the bulk field assignment below. -/
def updateTorrentStatus (t : Torrent) (info : TorrentInfo) : Torrent × Bool :=
  let changed :=
    t.status.hash ≠ info.hash ∨ t.status.name ≠ info.name ∨
    t.status.state ≠ info.state ∨ t.status.totalSize ≠ info.totalSize ∨
    t.status.contentPath ≠ info.contentPath ∨ t.status.addedOn ≠ info.addedOn ∨
    t.status.timeActive ≠ info.timeActive ∨ t.status.amountLeft ≠ info.amountLeft
  ({ t with status := { t.status with
      hash := info.hash, name := info.name, state := info.state,
      totalSize := info.totalSize, contentPath := info.contentPath,
      addedOn := info.addedOn, timeActive := info.timeActive,
      amountLeft := info.amountLeft } },
    decide changed)

/-- Embedding of steps 4–6 of `Reconcile` for a Torrent that is not
being deleted and already carries the finalizer (the steady state). -/
def reconcileSteady (pool : ClientPool) (t : Torrent) (env : TorrentEnv) (now : Nat) :
    Torrent × ClientPool × ReconcileOutcome :=
  -- 4. Resolve TCC and get qBittorrent client
  let (t₁, pool₁, clientResult) := getQBTClient pool t env now
  match clientResult with
  | .error e =>
    ({ t₁ with status := { t₁.status with
        conditions := setDegradedCondition t₁.status.conditions "ClientResolutionFailed" e now } },
      pool₁, { requeueAfter := 15, err := none })
  | .ok _ =>
    -- 5. derive the torrent hash from the magnet URI
    match GetTorrentHash t₁.spec.magnetURI with
    | .error e => (t₁, pool₁, { requeueAfter := 0, err := some e })
    | .ok hash =>
      match env.getInfoResult hash with
      | .error e =>
        ({ t₁ with status := { t₁.status with
            conditions := setDegradedCondition t₁.status.conditions "FailedToGetTorrentInfo" e now } },
          pool₁, { requeueAfter := 10, err := none })
      | .ok none =>
        match env.addResult t₁.spec.magnetURI with
        | .error e =>
          ({ t₁ with status := { t₁.status with
              conditions := setDegradedCondition t₁.status.conditions "FailedToAddTorrent" e now } },
            pool₁, { requeueAfter := 10, err := none })
        | .ok _ =>
          ({ t₁ with status := { t₁.status with
              conditions := setAvailableCondition t₁.status.conditions "TorrentAdded"
                "Torrent added to qBittorrent" now } },
            pool₁, { requeueAfter := 5, err := none })
      | .ok (some info) =>
        -- 6. torrent already exists: refresh observed fields
        let (t₂, _) := updateTorrentStatus t₁ info
        ({ t₂ with status := { t₂.status with
            conditions := setAvailableCondition t₂.status.conditions "TorrentActive"
              "Torrent is active on qBittorrent" now } },
          pool₁, { requeueAfter := 15, err := none })

/-! ### TorrentClientConfiguration controller
(internal/controller/torrentclientconfiguration_controller.go) -/

structure TCCEnv where
  getSecret : String → Option Secret
  /-- Result of `time.ParseDuration` (a stdlib collaborator) on the
  spec's checkInterval, in seconds; `none` is the parse error. -/
  parsedInterval : Option Nat
  loginResult : Except String Unit
  freshId : Nat
  pingResult : Except String Unit

/-- One degraded exit of the TCC reconcile: set the Degraded
condition, record `connected = false`, refresh `lastChecked`. -/
def tccDegradedExit (tcc : TCC) (reason message : String) (now : Nat) : TCC :=
  { tcc with status := { tcc.status with
      conditions := setDegradedCondition tcc.status.conditions reason message now,
      connected := false,
      lastChecked := some now } }

/-- Embedding of `Reconcile` for a TorrentClientConfiguration that was
fetched successfully.  Status updates are modelled as succeeding. -/
def reconcileTCC (pool : ClientPool) (tcc : TCC) (env : TCCEnv) (now : Nat) :
    TCC × ClientPool × ReconcileOutcome :=
  -- 2. Parse check interval (default 60s, parse failure only logged)
  let checkInterval : Nat :=
    if tcc.spec.checkInterval = "" then 60
    else match env.parsedInterval with
      | none => 60
      | some parsed => parsed
  -- 4. Validate the creds Secret exists and has required keys
  match env.getSecret tcc.spec.credentialsSecretName with
  | none =>
    (tccDegradedExit tcc "SecretNotFound"
        ("Credentials secret \"" ++ tcc.spec.credentialsSecretName ++ "\" not found") now,
      pool, { requeueAfter := checkInterval, err := none })
  | some secret =>
    if secret.data.username.isNone || secret.data.password.isNone then
      (tccDegradedExit tcc "SecretInvalid"
          ("Credentials secret \"" ++ tcc.spec.credentialsSecretName ++
            "\" missing 'username' or 'password' key") now,
        pool, { requeueAfter := checkInterval, err := none })
    else
      -- 5. Test connectivity to qBittorrent
      let r := getOrCreate pool now tcc.spec.url
        (secret.data.username.getD "") (secret.data.password.getD "")
        env.loginResult env.freshId
      match r.result with
      | .error e =>
        (tccDegradedExit tcc "ClientCreationFailed"
            ("Failed to create qBittorrent client for " ++ tcc.spec.url ++ ": " ++ e) now,
          r.pool, { requeueAfter := checkInterval, err := none })
      | .ok _ =>
        -- 6. Health check towards qBittorrent server
        match env.pingResult with
        | .error e =>
          (tccDegradedExit tcc "HealthCheckFailed"
              ("qBittorrent health check failed at " ++ tcc.spec.url ++ ": " ++ e) now,
            r.pool, { requeueAfter := checkInterval, err := none })
        | .ok _ =>
          -- 7. If previous checks passed, TCC is available
          ({ tcc with status := { tcc.status with
              conditions := setAvailableCondition tcc.status.conditions "Connected"
                ("Successfully connected to qBittorrent at " ++ tcc.spec.url) now,
              connected := true,
              lastChecked := some now } },
            r.pool, { requeueAfter := checkInterval, err := none })

/-! ### Concrete fixtures used by closed theorems -/

/-- A pool with one entry that has been idle for exactly its TTL at
instant 5 (`lastUsed = 0`, `ttl = 5`). -/
def poolIdleExactlyTTL : ClientPool :=
  { clients := [("k", { client := { id := 1, url := "u" }, credHash := "k", lastUsed := 0 })],
    ttl := 5 }

def emptyPool : ClientPool := { clients := [], ttl := 5 }

def availCond : Condition :=
  { ctype := typeAvailable, cstatus := true, reason := "Connected", message := "ok",
    lastTransitionTime := 0 }

/-- An Available TorrentClientConfiguration named `"a"`. -/
def tccA : TCC :=
  { name := "a", nsName := "ns",
    spec := { url := "http://a", credentialsSecretName := "sa", checkInterval := "" },
    status := { connected := true, lastChecked := none, qbittorrentVersion := "", conditions := [availCond] } }

/-- A second Available TorrentClientConfiguration named `"b"` in the
same namespace. -/
def tccB : TCC :=
  { name := "b", nsName := "ns",
    spec := { url := "http://b", credentialsSecretName := "sb", checkInterval := "" },
    status := { connected := true, lastChecked := none, qbittorrentVersion := "", conditions := [availCond] } }

def emptyTorrentStatus : TorrentStatus :=
  { contentPath := "", addedOn := 0, state := "", totalSize := 0, name := "",
    timeActive := 0, amountLeft := 0, hash := [], clientConfigurationName := "",
    conditions := [] }

/-- A Torrent explicitly referencing configuration `"a"`. -/
def torrentRefA : Torrent :=
  { name := "t1", nsName := "ns", finalizers := [TorrentFinalizer],
    spec := { magnetURI := "magnet:?xt=urn:btih:ABCD&dn=x".toList, clientConfigRef := some "a", deleteFilesOnRemoval := none },
    status := emptyTorrentStatus }

/-- The same Torrent without an explicit reference. -/
def torrentNoRef : Torrent :=
  { torrentRefA with spec := { torrentRefA.spec with clientConfigRef := none } }

/-- A Torrent (no explicit ref) with a recorded hash, as found on the
deletion path. -/
def torrentWithHash : Torrent :=
  { torrentNoRef with status := { emptyTorrentStatus with hash := "ABCD".toList } }

/-- A Torrent whose magnet URI has no `btih:` marker. -/
def torrentBadMagnet : Torrent :=
  { torrentNoRef with spec := { torrentNoRef.spec with
      magnetURI := "magnet:?xt=urn:xyz".toList } }

/-- Environment in which both `"a"` and `"b"` exist in the
namespace. -/
def envTwoTCCs : TorrentEnv :=
  { getTCC := fun n => if n = "a" then some tccA else if n = "b" then some tccB else none,
    tccList := [tccA, tccB],
    getSecret := fun _ => none,
    loginResult := .ok (),
    freshId := 1,
    getInfoResult := fun _ => .ok none,
    addResult := fun _ => .ok (),
    deleteResult := fun _ _ => .ok () }

/-- Environment with a single Available TCC whose credentials secret
is missing (so the step after selection fails). -/
def envOneTCCNoSecret : TorrentEnv :=
  { getTCC := fun n => if n = "a" then some tccA else none,
    tccList := [tccA],
    getSecret := fun _ => none,
    loginResult := .ok (),
    freshId := 1,
    getInfoResult := fun _ => .ok none,
    addResult := fun _ => .ok (),
    deleteResult := fun _ _ => .ok () }

/-- Environment with no TCC at all in the namespace. -/
def envNoTCC : TorrentEnv :=
  { getTCC := fun _ => none,
    tccList := [],
    getSecret := fun _ => none,
    loginResult := .ok (),
    freshId := 1,
    getInfoResult := fun _ => .ok none,
    addResult := fun _ => .ok (),
    deleteResult := fun _ _ => .ok () }

/-- Environment with a single Available TCC and a valid secret. -/
def envOneTCCGood : TorrentEnv :=
  { getTCC := fun n => if n = "a" then some tccA else none,
    tccList := [tccA],
    getSecret := fun n =>
      if n = "sa" then some { name := "sa", data := { username := some "u", password := some "p" } }
      else none,
    loginResult := .ok (),
    freshId := 1,
    getInfoResult := fun _ => .ok none,
    addResult := fun _ => .ok (),
    deleteResult := fun _ _ => .ok () }

def tccNoCond : TCC :=
  { name := "tcc1", nsName := "ns",
    spec := { url := "http://q", credentialsSecretName := "s", checkInterval := "" },
    status := { connected := false, lastChecked := none, qbittorrentVersion := "", conditions := [] } }

def tccEnvNoSecret : TCCEnv :=
  { getSecret := fun _ => none, parsedInterval := none, loginResult := .ok (),
    freshId := 1, pingResult := .ok () }

/-! ## Theorems -/

/-! ### Association-list and pool lemmas -/

theorem lookupEntry_cons (k : String) (v : PoolEntry) (t : List (String × PoolEntry))
    (key : String) :
    lookupEntry ((k, v) :: t) key = if k = key then some v else lookupEntry t key := rfl

theorem setEntry_cons (k : String) (w : PoolEntry) (t : List (String × PoolEntry))
    (key : String) (v : PoolEntry) :
    setEntry ((k, w) :: t) key v =
      if k = key then (key, v) :: t else (k, w) :: setEntry t key v := rfl

theorem eraseEntry_cons (k : String) (v : PoolEntry) (t : List (String × PoolEntry))
    (key : String) :
    eraseEntry ((k, v) :: t) key =
      if k = key then eraseEntry t key else (k, v) :: eraseEntry t key := rfl

theorem lookupEntry_eq_none_of_not_mem (m : List (String × PoolEntry)) (key : String)
    (h : key ∉ m.map Prod.fst) : lookupEntry m key = none := by
  induction m with
  | nil => rfl
  | cons kv t ih =>
    obtain ⟨k, v⟩ := kv
    simp only [List.map_cons, List.mem_cons, not_or] at h
    have hk : ¬ k = key := fun hkk => h.1 hkk.symm
    rw [lookupEntry_cons, if_neg hk]
    exact ih h.2

theorem lookupEntry_filter_of_pred (m : List (String × PoolEntry))
    (f : String × PoolEntry → Bool) (key : String) (e : PoolEntry)
    (h : lookupEntry m key = some e) (hf : f (key, e) = true) :
    lookupEntry (m.filter f) key = some e := by
  induction m with
  | nil => simp [lookupEntry] at h
  | cons kv t ih =>
    obtain ⟨k, v⟩ := kv
    by_cases hk : k = key
    · subst hk
      rw [lookupEntry_cons, if_pos rfl] at h
      cases h
      rw [List.filter_cons_of_pos hf, lookupEntry_cons, if_pos rfl]
    · rw [lookupEntry_cons, if_neg hk] at h
      by_cases hfv : f (k, v) = true
      · rw [List.filter_cons_of_pos hfv, lookupEntry_cons, if_neg hk]
        exact ih h
      · rw [List.filter_cons_of_neg (by simpa using hfv)]
        exact ih h

theorem lookupEntry_setEntry_self (m : List (String × PoolEntry)) (key : String) (v : PoolEntry) :
    lookupEntry (setEntry m key v) key = some v := by
  induction m with
  | nil => simp [setEntry, lookupEntry]
  | cons kv t ih =>
    obtain ⟨k, w⟩ := kv
    rw [setEntry_cons]
    by_cases hk : k = key
    · rw [if_pos hk, lookupEntry_cons, if_pos rfl]
    · rw [if_neg hk, lookupEntry_cons, if_neg hk]
      exact ih

theorem lookupEntry_erase_ne (m : List (String × PoolEntry)) (key k0 : String)
    (hne : key ≠ k0) : lookupEntry (eraseEntry m k0) key = lookupEntry m key := by
  induction m with
  | nil => rfl
  | cons kv t ih =>
    obtain ⟨k, v⟩ := kv
    rw [eraseEntry_cons, lookupEntry_cons]
    by_cases hk0 : k = k0
    · have hk : ¬ k = key := fun hkk => hne (hkk ▸ hk0)
      rw [if_pos hk0, if_neg hk]
      exact ih
    · rw [if_neg hk0, lookupEntry_cons]
      by_cases hk : k = key
      · rw [if_pos hk, if_pos hk]
      · rw [if_neg hk, if_neg hk]
        exact ih

theorem not_mem_keys_filter (t : List (String × PoolEntry)) (f : String × PoolEntry → Bool)
    (key : String) (h : key ∉ t.map Prod.fst) : key ∉ (t.filter f).map Prod.fst := by
  intro hmem
  rcases List.mem_map.mp hmem with ⟨p, hp, hpa⟩
  exact h (List.mem_map.mpr ⟨p, List.mem_of_mem_filter hp, hpa⟩)

/-- Core sweep lemma: `Cleanup` keeps exactly the entries whose idle
time does not strictly exceed the TTL (on well-formed pools, whose
keys are distinct as in a Go map). -/
theorem lookupEntry_filterIdle (m : List (String × PoolEntry)) (now ttl : Nat) (key : String)
    (e : PoolEntry) (hnd : (m.map Prod.fst).Nodup) (h : lookupEntry m key = some e) :
    lookupEntry (m.filter (fun kv => decide (now - kv.2.lastUsed ≤ ttl))) key =
      (if now - e.lastUsed > ttl then none else some e) := by
  induction m with
  | nil => simp [lookupEntry] at h
  | cons kv t ih =>
    obtain ⟨k, v⟩ := kv
    simp only [List.map_cons, List.nodup_cons] at hnd
    by_cases hk : k = key
    · subst hk
      rw [lookupEntry_cons, if_pos rfl] at h
      cases h
      by_cases hidle : now - e.lastUsed > ttl
      · rw [if_pos hidle]
        have hpred : ¬ ((fun kv : String × PoolEntry =>
            decide (now - kv.2.lastUsed ≤ ttl)) (k, e) = true) := by
          simp [Nat.not_le.mpr hidle]
        rw [List.filter_cons_of_neg (by simpa using hpred)]
        exact lookupEntry_eq_none_of_not_mem _ _ (not_mem_keys_filter t _ _ hnd.1)
      · rw [if_neg hidle]
        have hpred : ((fun kv : String × PoolEntry =>
            decide (now - kv.2.lastUsed ≤ ttl)) (k, e)) = true := by
          simp [Nat.not_lt.mp hidle]
        rw [List.filter_cons, if_pos hpred, lookupEntry_cons, if_pos rfl]
    · rw [lookupEntry_cons, if_neg hk] at h
      have hrec := ih hnd.2 h
      by_cases hfv : ((fun kv : String × PoolEntry =>
          decide (now - kv.2.lastUsed ≤ ttl)) (k, v)) = true
      · rw [List.filter_cons, if_pos hfv, lookupEntry_cons, if_neg hk]
        exact hrec
      · rw [List.filter_cons, if_neg hfv]
        exact hrec

theorem poolHit_credHash (m : List (String × PoolEntry)) (key : String) (e : PoolEntry)
    (h : poolHit m key = some e) :
    lookupEntry m key = some e ∧ e.credHash = key := by
  unfold poolHit at h
  cases hlk : lookupEntry m key with
  | none =>
    rw [hlk] at h
    exact absurd h (by simp)
  | some entry =>
    rw [hlk] at h
    by_cases hc : entry.credHash = key
    · simp only [if_pos hc] at h
      injection h with h
      subst h
      exact ⟨rfl, hc⟩
    · simp only [if_neg hc] at h
      exact absurd h (by simp)

/-- The hit path of `GetOrCreate` in closed form. -/
theorem getOrCreate_hit (p : ClientPool) (now : Nat) (url user pass : String)
    (login : Except String Unit) (fresh : Nat) (entry : PoolEntry)
    (hhit : poolHit p.clients (hashCredentials url user pass) = some entry) :
    getOrCreate p now url user pass login fresh =
      { result := .ok entry.client,
        pool := { p with clients := (setEntry p.clients (hashCredentials url user pass) { entry with lastUsed := now }) },
        invokedLogin := false } := by
  simp only [getOrCreate, hhit]

/-- After any `GetOrCreate` that returns a client `c`, the pool holds
exactly the entry `(c, key, now)` at the credential key, and the TTL
is unchanged. -/
theorem getOrCreate_ok_lookup (p : ClientPool) (now : Nat) (url user pass : String)
    (login : Except String Unit) (fresh : Nat) (c : Client)
    (hok : (getOrCreate p now url user pass login fresh).result = .ok c) :
    lookupEntry (getOrCreate p now url user pass login fresh).pool.clients
        (hashCredentials url user pass) =
      some { client := c, credHash := hashCredentials url user pass, lastUsed := now } ∧
    (getOrCreate p now url user pass login fresh).pool.ttl = p.ttl := by
  cases hhit : poolHit p.clients (hashCredentials url user pass) with
  | some entry =>
    have hch := (poolHit_credHash _ _ _ hhit).2
    simp only [getOrCreate, hhit] at hok ⊢
    injection hok with hok
    refine ⟨?_, trivial⟩
    rw [lookupEntry_setEntry_self]
    simp [hch, hok]
  | none =>
    cases login with
    | error e =>
      simp only [getOrCreate, hhit] at hok
      exact absurd hok (by simp)
    | ok u =>
      simp only [getOrCreate, hhit] at hok ⊢
      injection hok with hok
      refine ⟨?_, trivial⟩
      rw [lookupEntry_setEntry_self]
      simp [hok]

/-- A single eviction step (sweep or timer fire) at an instant no
later than `lastUsed + ttl` keeps the entry and the TTL. -/
theorem applySweep_preserves (p : ClientPool) (op : SweepOp) (key : String) (e : PoolEntry)
    (h : lookupEntry p.clients key = some e)
    (ht : sweepTime op ≤ e.lastUsed + p.ttl) :
    lookupEntry (applySweep p op).clients key = some e ∧ (applySweep p op).ttl = p.ttl := by
  cases op with
  | cleanupAt now =>
    simp only [applySweep, cleanup, sweepTime] at ht ⊢
    refine ⟨?_, trivial⟩
    apply lookupEntry_filter_of_pred _ _ _ _ h
    simp only [decide_eq_true_eq]
    omega
  | fireAt tf fk =>
    simp only [sweepTime] at ht
    cases hlk : lookupEntry p.clients fk with
    | none =>
      simp only [applySweep, scheduleRemoveFire, hlk]
      exact ⟨h, trivial⟩
    | some entry =>
      simp only [applySweep, scheduleRemoveFire, hlk]
      by_cases hkey : key = fk
      · subst hkey
        rw [h] at hlk
        injection hlk with hlk
        subst hlk
        have hno : ¬ (tf - e.lastUsed > p.ttl) := by omega
        simp only [if_neg hno]
        exact ⟨h, trivial⟩
      · by_cases hidle : tf - entry.lastUsed > p.ttl
        · simp only [if_pos hidle, removeKey]
          exact ⟨(lookupEntry_erase_ne _ _ _ hkey).trans h, trivial⟩
        · simp only [if_neg hidle]
          exact ⟨h, trivial⟩

theorem foldl_applySweep_preserves (ops : List SweepOp) (p : ClientPool) (key : String)
    (e : PoolEntry) (h : lookupEntry p.clients key = some e)
    (hops : ∀ op ∈ ops, sweepTime op ≤ e.lastUsed + p.ttl) :
    lookupEntry (ops.foldl applySweep p).clients key = some e ∧
    (ops.foldl applySweep p).ttl = p.ttl := by
  induction ops generalizing p with
  | nil => exact ⟨h, rfl⟩
  | cons op ops ih =>
    have hstep := applySweep_preserves p op key e h (hops op (List.mem_cons_self op ops))
    have hrest := ih (applySweep p op) hstep.1 (by
      intro o ho
      rw [hstep.2]
      exact hops o (List.mem_cons_of_mem op ho))
    exact ⟨hrest.1, hrest.2.trans hstep.2⟩

/-! ### Claim C3 (confirmed) -/

/-- C3: once a `GetOrCreate` for `(url, user, pass)` has returned the
handle `c` at instant `t₁`, then — after any sequence of sweeps and
timer fires each occurring no later than `t₁ + TTL` (the TTL window) —
a repeated `GetOrCreate` with the same triple at any instant `t₂`
returns the same handle `c`, does not invoke `Login` (its outcome and
the fresh allocation are irrelevant), and only refreshes the entry's
last-used timestamp, leaving the rest of the pool unchanged. -/
theorem getOrCreate_same_triple_hits_within_ttl
    (p₀ : ClientPool) (t₁ : Nat) (url user pass : String)
    (login₁ : Except String Unit) (fresh₁ : Nat) (c : Client)
    (hok : (getOrCreate p₀ t₁ url user pass login₁ fresh₁).result = .ok c)
    (ops : List SweepOp)
    (hops : ∀ op ∈ ops, sweepTime op ≤ t₁ + p₀.ttl)
    (t₂ : Nat) (login₂ : Except String Unit) (fresh₂ : Nat) :
    (getOrCreate (ops.foldl applySweep (getOrCreate p₀ t₁ url user pass login₁ fresh₁).pool)
        t₂ url user pass login₂ fresh₂).result = .ok c ∧
    (getOrCreate (ops.foldl applySweep (getOrCreate p₀ t₁ url user pass login₁ fresh₁).pool)
        t₂ url user pass login₂ fresh₂).invokedLogin = false ∧
    (getOrCreate (ops.foldl applySweep (getOrCreate p₀ t₁ url user pass login₁ fresh₁).pool)
        t₂ url user pass login₂ fresh₂).pool.clients =
      setEntry (ops.foldl applySweep
          (getOrCreate p₀ t₁ url user pass login₁ fresh₁).pool).clients
        (hashCredentials url user pass)
        { client := c, credHash := hashCredentials url user pass, lastUsed := t₂ } ∧
    (getOrCreate (ops.foldl applySweep (getOrCreate p₀ t₁ url user pass login₁ fresh₁).pool)
        t₂ url user pass login₂ fresh₂).pool.ttl =
      (ops.foldl applySweep (getOrCreate p₀ t₁ url user pass login₁ fresh₁).pool).ttl := by
  have h₁ := getOrCreate_ok_lookup p₀ t₁ url user pass login₁ fresh₁ c hok
  have h₂ := foldl_applySweep_preserves ops _ (hashCredentials url user pass) _ h₁.1 (by
    intro o ho
    rw [h₁.2]
    exact hops o ho)
  have hhit : poolHit
      (ops.foldl applySweep (getOrCreate p₀ t₁ url user pass login₁ fresh₁).pool).clients
      (hashCredentials url user pass) =
      some { client := c, credHash := hashCredentials url user pass, lastUsed := t₁ } := by
    unfold poolHit
    rw [h₂.1]
    simp
  rw [getOrCreate_hit _ t₂ url user pass login₂ fresh₂ _ hhit]
  exact ⟨rfl, rfl, rfl, rfl⟩

/-- C3 witness: concrete first call at instant 0 (TTL 5), a sweep at 3
and a timer fire at 5, then a second call at instant 4 whose login
collaborator would fail — it still returns the cached handle without
logging in. -/
theorem getOrCreate_same_triple_hits_within_ttl_witness :
    (getOrCreate
        ([SweepOp.cleanupAt 3, SweepOp.fireAt 5 "u|a|b"].foldl applySweep
          (getOrCreate { clients := [], ttl := 5 } 0 "u" "a" "b" (.ok ()) 1).pool)
        4 "u" "a" "b" (.error "down") 9).result = .ok { id := 1, url := "u" } ∧
    (getOrCreate
        ([SweepOp.cleanupAt 3, SweepOp.fireAt 5 "u|a|b"].foldl applySweep
          (getOrCreate { clients := [], ttl := 5 } 0 "u" "a" "b" (.ok ()) 1).pool)
        4 "u" "a" "b" (.error "down") 9).invokedLogin = false := by
  have := getOrCreate_same_triple_hits_within_ttl { clients := [], ttl := 5 } 0 "u" "a" "b"
    (.ok ()) 1 { id := 1, url := "u" } (by decide)
    [SweepOp.cleanupAt 3, SweepOp.fireAt 5 "u|a|b"] (by decide) 4 (.error "down") 9
  exact ⟨this.1, this.2.1⟩

/-! ### Claim C4 (corrected) -/

/-- C4 counterexample: in a pool with TTL 5, the entry `"k"` last used
at instant 0 has been idle for exactly the TTL at instant 5, yet a
`Cleanup` sweep at instant 5 keeps it — refuting the claim that an
entry whose idle time equals the TTL exactly is removed (the source
evicts only on *strict* excess, `now.Sub(lastUsed) > ttl`). -/
theorem cleanup_keeps_entry_idle_exactly_ttl :
    lookupEntry (cleanup poolIdleExactlyTTL 5).clients "k" ≠ none ∧
    lookupEntry (cleanup poolIdleExactlyTTL 5).clients "k" =
      some { client := { id := 1, url := "u" }, credHash := "k", lastUsed := 0 } := by
  constructor
  · decide
  · decide

/-- C4 amended: on a well-formed pool (distinct keys, as in a Go map),
a `Cleanup` sweep at instant `now` removes an entry iff its idle time
*strictly* exceeds the TTL; an entry idle for at most the TTL
(including exactly the TTL) survives with its fields untouched. -/
theorem cleanup_removes_iff_strictly_idle (p : ClientPool) (now : Nat) (key : String)
    (e : PoolEntry) (hnd : (p.clients.map Prod.fst).Nodup)
    (h : lookupEntry p.clients key = some e) :
    lookupEntry (cleanup p now).clients key =
      (if now - e.lastUsed > p.ttl then none else some e) := by
  exact lookupEntry_filterIdle p.clients now p.ttl key e hnd h

/-- C4 amended, witness: in a two-entry pool with TTL 5 swept at
instant 9, the entry last used at 2 (idle 7 > 5) is removed while the
entry last used at 6 (idle 3 ≤ 5) survives. -/
theorem cleanup_removes_iff_strictly_idle_witness :
    lookupEntry
        (cleanup
          { clients :=
              [("a", { client := { id := 1, url := "u" }, credHash := "a", lastUsed := 2 }),
               ("b", { client := { id := 2, url := "u" }, credHash := "b", lastUsed := 6 })],
            ttl := 5 } 9).clients "a" = none ∧
    lookupEntry
        (cleanup
          { clients :=
              [("a", { client := { id := 1, url := "u" }, credHash := "a", lastUsed := 2 }),
               ("b", { client := { id := 2, url := "u" }, credHash := "b", lastUsed := 6 })],
            ttl := 5 } 9).clients "b" =
      some { client := { id := 2, url := "u" }, credHash := "b", lastUsed := 6 } := by
  constructor
  · have := cleanup_removes_iff_strictly_idle
      { clients :=
          [("a", { client := { id := 1, url := "u" }, credHash := "a", lastUsed := 2 }),
           ("b", { client := { id := 2, url := "u" }, credHash := "b", lastUsed := 6 })],
        ttl := 5 } 9 "a"
      { client := { id := 1, url := "u" }, credHash := "a", lastUsed := 2 }
      (by decide) (by decide)
    simpa using this
  · have := cleanup_removes_iff_strictly_idle
      { clients :=
          [("a", { client := { id := 1, url := "u" }, credHash := "a", lastUsed := 2 }),
           ("b", { client := { id := 2, url := "u" }, credHash := "b", lastUsed := 6 })],
        ttl := 5 } 9 "b"
      { client := { id := 2, url := "u" }, credHash := "b", lastUsed := 6 }
      (by decide) (by decide)
    simpa using this

/-! ### Claim C5 (corrected) -/

/-- C5 counterexample: when login fails with `"boom"` on a miss,
`GetOrCreate` does not return the authentication error unmodified —
it wraps it with credential and URL context. -/
theorem getOrCreate_login_error_is_wrapped :
    (getOrCreate { clients := [], ttl := 5 } 0 "http://h" "admin" "pw"
        (.error "boom") 1).result ≠ .error "boom" ∧
    (getOrCreate { clients := [], ttl := 5 } 0 "http://h" "admin" "pw"
        (.error "boom") 1).result =
      .error "failed to login for credentials[admin, pw] url[http://h]: boom" := by
  constructor
  · decide
  · rfl

/-- C5 amended: on a key miss, a failed authentication makes
`GetOrCreate` return an error that wraps the authentication error with
credential and URL context, and it inserts nothing into the pool: the
pool after the failed call equals the pool before it. -/
theorem getOrCreate_login_failure_not_cached (p : ClientPool) (now : Nat)
    (url user pass e : String) (fresh : Nat)
    (hmiss : poolHit p.clients (hashCredentials url user pass) = none) :
    (getOrCreate p now url user pass (.error e) fresh).result =
      .error ("failed to login for credentials[" ++ user ++ ", " ++ pass ++
        "] url[" ++ url ++ "]: " ++ e) ∧
    (getOrCreate p now url user pass (.error e) fresh).pool = p ∧
    (getOrCreate p now url user pass (.error e) fresh).invokedLogin = true := by
  simp [getOrCreate, hmiss]

/-- C5 amended, witness at a concrete miss. -/
theorem getOrCreate_login_failure_not_cached_witness :
    (getOrCreate { clients := [], ttl := 5 } 0 "u" "a" "b" (.error "boom") 1).result =
      .error "failed to login for credentials[a, b] url[u]: boom" ∧
    (getOrCreate { clients := [], ttl := 5 } 0 "u" "a" "b" (.error "boom") 1).pool =
      { clients := [], ttl := 5 } ∧
    (getOrCreate { clients := [], ttl := 5 } 0 "u" "a" "b" (.error "boom") 1).invokedLogin =
      true := by
  have := getOrCreate_login_failure_not_cached { clients := [], ttl := 5 } 0 "u" "a" "b"
    "boom" 1 (by decide)
  simpa using this

/-! ### Condition-list lemmas -/

theorem typeAvailable_ne_typeDegraded : ¬ (typeAvailable = typeDegraded) := by decide

theorem typeDegraded_ne_typeAvailable : ¬ (typeDegraded = typeAvailable) := by decide

theorem findStatusCondition_cons (c : Condition) (t : List Condition) (ty : String) :
    findStatusCondition (c :: t) ty =
      if c.ctype = ty then some c else findStatusCondition t ty := rfl

theorem findStatusCondition_some_ctype (conds : List Condition) (ty : String) (c : Condition)
    (h : findStatusCondition conds ty = some c) : c.ctype = ty := by
  induction conds with
  | nil => cases h
  | cons d t ih =>
    rw [findStatusCondition_cons] at h
    by_cases hd : d.ctype = ty
    · rw [if_pos hd] at h
      injection h with h
      subst h
      exact hd
    · rw [if_neg hd] at h
      exact ih h

theorem findStatusCondition_append_none (a b : List Condition) (ty : String)
    (h : findStatusCondition a ty = none) :
    findStatusCondition (a ++ b) ty = findStatusCondition b ty := by
  induction a with
  | nil => rfl
  | cons c t ih =>
    rw [findStatusCondition_cons] at h
    by_cases hc : c.ctype = ty
    · rw [if_pos hc] at h
      cases h
    · rw [if_neg hc] at h
      rw [List.cons_append, findStatusCondition_cons, if_neg hc]
      exact ih h

theorem findStatusCondition_updateFirst (conds : List Condition) (newc c : Condition)
    (h : findStatusCondition conds newc.ctype = some c) :
    findStatusCondition (updateFirstCondition conds newc) newc.ctype =
      some (mergeCondition c newc) := by
  induction conds with
  | nil => cases h
  | cons d t ih =>
    rw [findStatusCondition_cons] at h
    by_cases hd : d.ctype = newc.ctype
    · rw [if_pos hd] at h
      injection h with h
      subst h
      simp only [updateFirstCondition, if_pos hd]
      rw [findStatusCondition_cons, if_pos (show (mergeCondition d newc).ctype = newc.ctype by
        simpa [mergeCondition] using hd)]
    · rw [if_neg hd] at h
      simp only [updateFirstCondition, if_neg hd]
      rw [findStatusCondition_cons, if_neg hd]
      exact ih h

theorem removeStatusCondition_cons (c : Condition) (t : List Condition) (ty : String) :
    removeStatusCondition (c :: t) ty =
      if c.ctype = ty then removeStatusCondition t ty
      else c :: removeStatusCondition t ty := rfl

theorem findStatusCondition_remove_self (conds : List Condition) (ty : String) :
    findStatusCondition (removeStatusCondition conds ty) ty = none := by
  induction conds with
  | nil => rfl
  | cons c t ih =>
    rw [removeStatusCondition_cons]
    by_cases hc : c.ctype = ty
    · rw [if_pos hc]
      exact ih
    · rw [if_neg hc, findStatusCondition_cons, if_neg hc]
      exact ih

theorem findStatusCondition_remove_ne (conds : List Condition) (ty ty' : String)
    (h : ¬ ty = ty') :
    findStatusCondition (removeStatusCondition conds ty') ty =
      findStatusCondition conds ty := by
  induction conds with
  | nil => rfl
  | cons c t ih =>
    rw [removeStatusCondition_cons, findStatusCondition_cons]
    by_cases hc : c.ctype = ty'
    · have hcty : ¬ c.ctype = ty := by
        rw [hc]
        exact fun hh => h hh.symm
      rw [if_pos hc, if_neg hcty]
      exact ih
    · rw [if_neg hc, findStatusCondition_cons]
      by_cases hcy : c.ctype = ty
      · rw [if_pos hcy, if_pos hcy]
      · rw [if_neg hcy, if_neg hcy]
        exact ih

theorem findStatusCondition_set_self (conds : List Condition) (newc : Condition) :
    ∃ c, findStatusCondition (setStatusCondition conds newc) newc.ctype = some c ∧
      c.ctype = newc.ctype ∧ c.cstatus = newc.cstatus ∧
      c.reason = newc.reason ∧ c.message = newc.message := by
  unfold setStatusCondition
  cases hf : findStatusCondition conds newc.ctype with
  | none =>
    refine ⟨newc, ?_, rfl, rfl, rfl, rfl⟩
    rw [findStatusCondition_append_none _ _ _ hf, findStatusCondition_cons, if_pos rfl]
  | some c =>
    have hcty := findStatusCondition_some_ctype _ _ _ hf
    exact ⟨mergeCondition c newc, findStatusCondition_updateFirst _ _ _ hf,
      by simpa [mergeCondition] using hcty, rfl, rfl, rfl⟩

/-- The shared `setDegradedCondition` helper always leaves a Degraded
condition carrying the given reason and message, and no Available
condition. -/
theorem setDegraded_facts (conds : List Condition) (r m : String) (now : Nat) :
    findStatusCondition (setDegradedCondition conds r m now) typeAvailable = none ∧
    ∃ c, findStatusCondition (setDegradedCondition conds r m now) typeDegraded = some c ∧
      c.ctype = typeDegraded ∧ c.cstatus = true ∧ c.reason = r ∧ c.message = m := by
  constructor
  · exact findStatusCondition_remove_self _ _
  · obtain ⟨c, hfind, hty, hst, hr, hm⟩ := findStatusCondition_set_self conds
      { ctype := typeDegraded, cstatus := true, reason := r, message := m,
        lastTransitionTime := now }
    refine ⟨c, ?_, hty, hst, hr, hm⟩
    unfold setDegradedCondition
    rw [findStatusCondition_remove_ne _ _ _ typeDegraded_ne_typeAvailable]
    exact hfind

/-- The shared `setAvailableCondition` helper always leaves an
Available condition carrying the given reason and message, and no
Degraded condition. -/
theorem setAvailable_facts (conds : List Condition) (r m : String) (now : Nat) :
    findStatusCondition (setAvailableCondition conds r m now) typeDegraded = none ∧
    ∃ c, findStatusCondition (setAvailableCondition conds r m now) typeAvailable = some c ∧
      c.ctype = typeAvailable ∧ c.cstatus = true ∧ c.reason = r ∧ c.message = m := by
  constructor
  · exact findStatusCondition_remove_self _ _
  · obtain ⟨c, hfind, hty, hst, hr, hm⟩ := findStatusCondition_set_self conds
      { ctype := typeAvailable, cstatus := true, reason := r, message := m,
        lastTransitionTime := now }
    refine ⟨c, ?_, hty, hst, hr, hm⟩
    unfold setAvailableCondition
    rw [findStatusCondition_remove_ne _ _ _ typeAvailable_ne_typeDegraded]
    exact hfind

theorem setAvailable_of_inv (conds : List Condition) (hinv : condInvariant conds)
    (r m : String) (n : Nat) :
    ∃ c, setAvailableCondition conds r m n = [c] ∧
      c.ctype = typeAvailable ∧ c.cstatus = true := by
  obtain rfl | ⟨c0, rfl, hty | hty⟩ := hinv
  · refine ⟨{ ctype := typeAvailable, cstatus := true, reason := r, message := m, lastTransitionTime := n }, ?_, rfl, rfl⟩
    simp [setAvailableCondition, setStatusCondition, findStatusCondition,
      removeStatusCondition, typeAvailable_ne_typeDegraded]
  · refine ⟨mergeCondition c0 { ctype := typeAvailable, cstatus := true, reason := r, message := m, lastTransitionTime := n }, ?_, by simpa [mergeCondition] using hty, rfl⟩
    simp [setAvailableCondition, setStatusCondition, findStatusCondition,
      updateFirstCondition, removeStatusCondition, hty, mergeCondition,
      typeAvailable_ne_typeDegraded]
  · refine ⟨{ ctype := typeAvailable, cstatus := true, reason := r, message := m, lastTransitionTime := n }, ?_, rfl, rfl⟩
    simp [setAvailableCondition, setStatusCondition, findStatusCondition,
      removeStatusCondition, hty, typeDegraded_ne_typeAvailable,
      typeAvailable_ne_typeDegraded]

theorem setDegraded_of_inv (conds : List Condition) (hinv : condInvariant conds)
    (r m : String) (n : Nat) :
    ∃ c, setDegradedCondition conds r m n = [c] ∧
      c.ctype = typeDegraded ∧ c.cstatus = true := by
  obtain rfl | ⟨c0, rfl, hty | hty⟩ := hinv
  · refine ⟨{ ctype := typeDegraded, cstatus := true, reason := r, message := m, lastTransitionTime := n }, ?_, rfl, rfl⟩
    simp [setDegradedCondition, setStatusCondition, findStatusCondition,
      removeStatusCondition, typeDegraded_ne_typeAvailable]
  · refine ⟨{ ctype := typeDegraded, cstatus := true, reason := r, message := m, lastTransitionTime := n }, ?_, rfl, rfl⟩
    simp [setDegradedCondition, setStatusCondition, findStatusCondition,
      removeStatusCondition, hty, typeAvailable_ne_typeDegraded,
      typeDegraded_ne_typeAvailable]
  · refine ⟨mergeCondition c0 { ctype := typeDegraded, cstatus := true, reason := r, message := m, lastTransitionTime := n }, ?_, by simpa [mergeCondition] using hty, rfl⟩
    simp [setDegradedCondition, setStatusCondition, findStatusCondition,
      updateFirstCondition, removeStatusCondition, hty, mergeCondition,
      typeDegraded_ne_typeAvailable]

theorem applyCondCall_singleton (conds : List Condition) (call : CondCall)
    (hinv : condInvariant conds) :
    ∃ c, applyCondCall conds call = [c] ∧ c.ctype = callKind call ∧ c.cstatus = true := by
  cases call with
  | available r m n => exact setAvailable_of_inv conds hinv r m n
  | degraded r m n => exact setDegraded_of_inv conds hinv r m n

theorem applyCondCall_preserves_inv (conds : List Condition) (call : CondCall)
    (hinv : condInvariant conds) : condInvariant (applyCondCall conds call) := by
  obtain ⟨c, hc, hk, _⟩ := applyCondCall_singleton conds call hinv
  right
  refine ⟨c, hc, ?_⟩
  cases call with
  | available r m n => exact Or.inl hk
  | degraded r m n => exact Or.inr hk

theorem foldl_applyCondCall_inv (calls : List CondCall) (conds : List Condition)
    (hinv : condInvariant conds) : condInvariant (calls.foldl applyCondCall conds) := by
  induction calls generalizing conds with
  | nil => exact hinv
  | cons call calls ih => exact ih _ (applyCondCall_preserves_inv conds call hinv)

/-! ### Claim C6 (confirmed) -/

/-- C6: starting from a fresh object (empty condition list), after any
sequence of `setAvailableCondition`/`setDegradedCondition` calls
followed by one more call, the condition list has length exactly 1,
its kind matches the final call, and Available and Degraded never
co-exist. -/
theorem conditionCalls_mutually_exclusive (calls : List CondCall) (call : CondCall) :
    (applyCondCall (calls.foldl applyCondCall []) call).length = 1 ∧
    (∀ c ∈ applyCondCall (calls.foldl applyCondCall []) call, c.ctype = callKind call) ∧
    ¬ ((∃ c ∈ applyCondCall (calls.foldl applyCondCall []) call, c.ctype = typeAvailable) ∧
       (∃ c ∈ applyCondCall (calls.foldl applyCondCall []) call, c.ctype = typeDegraded)) := by
  have hinv := foldl_applyCondCall_inv calls [] (Or.inl rfl)
  obtain ⟨c, hc, hk, _⟩ := applyCondCall_singleton _ call hinv
  rw [hc]
  refine ⟨rfl, ?_, ?_⟩
  · intro c' hc'
    rw [List.mem_singleton] at hc'
    subst hc'
    exact hk
  · rintro ⟨⟨a, ha, hat⟩, ⟨b, hb, hbt⟩⟩
    rw [List.mem_singleton] at ha hb
    subst ha
    subst hb
    rw [hat] at hbt
    exact typeAvailable_ne_typeDegraded hbt

/-! ### Claim C10 (confirmed) -/

theorem tccDegradedExit_spec (tcc : TCC) (r m : String) (now : Nat)
    (hr : r = "SecretNotFound" ∨ r = "SecretInvalid" ∨ r = "ClientCreationFailed" ∨
      r = "HealthCheckFailed") :
    (tccDegradedExit tcc r m now).status.lastChecked = some now ∧
    ((tccDegradedExit tcc r m now).status.connected = true ↔
      ((∃ c, findStatusCondition (tccDegradedExit tcc r m now).status.conditions
          typeAvailable = some c) ∧
        findStatusCondition (tccDegradedExit tcc r m now).status.conditions
          typeDegraded = none)) ∧
    ((tccDegradedExit tcc r m now).status.connected = false →
      ∃ c, findStatusCondition (tccDegradedExit tcc r m now).status.conditions
          typeDegraded = some c ∧
        (c.reason = "SecretNotFound" ∨ c.reason = "SecretInvalid" ∨
         c.reason = "ClientCreationFailed" ∨ c.reason = "HealthCheckFailed")) := by
  obtain ⟨havail, c, hfind, -, -, hreason, -⟩ := setDegraded_facts tcc.status.conditions r m now
  refine ⟨rfl, ?_, ?_⟩
  · constructor
    · intro h
      exact absurd h (by simp [tccDegradedExit])
    · rintro ⟨⟨c', hc'⟩, -⟩
      rw [show (tccDegradedExit tcc r m now).status.conditions =
          setDegradedCondition tcc.status.conditions r m now from rfl] at hc'
      rw [havail] at hc'
      cases hc'
  · intro _
    refine ⟨c, hfind, ?_⟩
    rw [hreason]
    exact hr

/-- C10: every branch of the TorrentClientConfiguration reconcile that
reaches a status write refreshes `lastChecked`; `connected` ends up
`true` exactly when the Available condition is the one present (and
Degraded absent); and whenever `connected` is `false` the Degraded
condition present carries one of the four branch reasons
SecretNotFound, SecretInvalid, ClientCreationFailed,
HealthCheckFailed. -/
theorem reconcileTCC_connected_iff_available (pool : ClientPool) (tcc : TCC) (env : TCCEnv)
    (now : Nat) :
    (reconcileTCC pool tcc env now).1.status.lastChecked = some now ∧
    ((reconcileTCC pool tcc env now).1.status.connected = true ↔
      ((∃ c, findStatusCondition (reconcileTCC pool tcc env now).1.status.conditions
          typeAvailable = some c) ∧
        findStatusCondition (reconcileTCC pool tcc env now).1.status.conditions
          typeDegraded = none)) ∧
    ((reconcileTCC pool tcc env now).1.status.connected = false →
      ∃ c, findStatusCondition (reconcileTCC pool tcc env now).1.status.conditions
          typeDegraded = some c ∧
        (c.reason = "SecretNotFound" ∨ c.reason = "SecretInvalid" ∨
         c.reason = "ClientCreationFailed" ∨ c.reason = "HealthCheckFailed")) := by
  cases hsec : env.getSecret tcc.spec.credentialsSecretName with
  | none =>
    simp only [reconcileTCC, hsec]
    exact tccDegradedExit_spec tcc _ _ now (Or.inl rfl)
  | some secret =>
    by_cases hdata : (secret.data.username.isNone || secret.data.password.isNone) = true
    · simp only [reconcileTCC, hsec, if_pos hdata]
      exact tccDegradedExit_spec tcc _ _ now (Or.inr (Or.inl rfl))
    · cases hoc : (getOrCreate pool now tcc.spec.url (secret.data.username.getD "")
          (secret.data.password.getD "") env.loginResult env.freshId).result with
      | error e =>
        simp only [reconcileTCC, hsec, if_neg hdata, hoc]
        exact tccDegradedExit_spec tcc _ _ now (Or.inr (Or.inr (Or.inl rfl)))
      | ok c =>
        cases hping : env.pingResult with
        | error e =>
          simp only [reconcileTCC, hsec, if_neg hdata, hoc, hping]
          exact tccDegradedExit_spec tcc _ _ now (Or.inr (Or.inr (Or.inr rfl)))
        | ok u =>
          simp only [reconcileTCC, hsec, if_neg hdata, hoc, hping]
          obtain ⟨hdeg, c', hfind, -, -, -, -⟩ := setAvailable_facts tcc.status.conditions
            "Connected" ("Successfully connected to qBittorrent at " ++ tcc.spec.url) now
          refine ⟨trivial, ?_, ?_⟩
          · constructor
            · intro _
              exact ⟨⟨c', hfind⟩, hdeg⟩
            · intro _
              trivial
          · intro h
            exact absurd h (by simp)

/-- C10 witness: a configuration whose credentials secret is missing,
reconciled at instant 7 — `lastChecked` is refreshed and the Degraded
condition present carries a branch reason while `connected` is false. -/
theorem reconcileTCC_connected_iff_available_witness :
    (reconcileTCC emptyPool tccNoCond tccEnvNoSecret 7).1.status.lastChecked = some 7 ∧
    ∃ c, findStatusCondition
        (reconcileTCC emptyPool tccNoCond tccEnvNoSecret 7).1.status.conditions
        typeDegraded = some c ∧
      (c.reason = "SecretNotFound" ∨ c.reason = "SecretInvalid" ∨
       c.reason = "ClientCreationFailed" ∨ c.reason = "HealthCheckFailed") := by
  have h := reconcileTCC_connected_iff_available emptyPool tccNoCond tccEnvNoSecret 7
  exact ⟨h.1, h.2.2 rfl⟩

/-- C6 witness: a concrete Available call followed by a Degraded call
leaves exactly one condition. -/
theorem conditionCalls_mutually_exclusive_witness :
    (applyCondCall ([CondCall.available "r" "m" 1].foldl applyCondCall [])
        (CondCall.degraded "r2" "m2" 2)).length = 1 := by
  exact (conditionCalls_mutually_exclusive [CondCall.available "r" "m" 1]
    (CondCall.degraded "r2" "m2" 2)).1

/-! ### Torrent controller lemmas -/

theorem removeFinalizer_not_mem (t : Torrent) :
    TorrentFinalizer ∉ (removeFinalizer t).finalizers := by
  intro h
  rw [removeFinalizer] at h
  rcases List.of_mem_filter h with hf
  simp at hf

/-- `getQBTClient` never touches the Torrent's spec, finalizers,
conditions or recorded hash — it only (possibly) records the selected
configuration name. -/
theorem getQBTClient_preserves (pool : ClientPool) (t : Torrent) (env : TorrentEnv)
    (now : Nat) :
    (getQBTClient pool t env now).1.spec = t.spec ∧
    (getQBTClient pool t env now).1.finalizers = t.finalizers ∧
    (getQBTClient pool t env now).1.status.conditions = t.status.conditions ∧
    (getQBTClient pool t env now).1.status.hash = t.status.hash := by
  unfold getQBTClient getQBTClientResolve
  repeat' split
  all_goals exact ⟨rfl, rfl, rfl, rfl⟩

/-! ### Claim C9 (confirmed) -/

theorem getQBTClientResolve_records (pool : ClientPool) (t : Torrent) (env : TorrentEnv)
    (now : Nat) (tcc : TCC) (cond : Condition)
    (hlist : env.tccList = [tcc])
    (hcond : findStatusCondition tcc.status.conditions typeAvailable = some cond)
    (hst : cond.cstatus = true) :
    (getQBTClientResolve pool t env now).1.status.clientConfigurationName = tcc.name := by
  cases hsec : env.getSecret tcc.spec.credentialsSecretName with
  | none => simp [getQBTClientResolve, hlist, hcond, hst, hsec]
  | some secret => simp [getQBTClientResolve, hlist, hcond, hst, hsec]

/-- C9: whenever a configuration is successfully selected for a work
item (the namespace list yields it and it passes the availability
check), its name is recorded on the Torrent's
`status.clientConfigurationName` — regardless of whether the later
secret fetch or session creation succeeds (no assumption is made about
them). -/
theorem getQBTClient_records_selected (pool : ClientPool) (t : Torrent) (env : TorrentEnv)
    (now : Nat) (tcc : TCC) (cond : Condition)
    (hlist : env.tccList = [tcc])
    (hcond : findStatusCondition tcc.status.conditions typeAvailable = some cond)
    (hst : cond.cstatus = true)
    (href : ∀ refName, t.spec.clientConfigRef = some refName →
      (env.getTCC refName).isSome = true) :
    (getQBTClient pool t env now).1.status.clientConfigurationName = tcc.name := by
  unfold getQBTClient
  cases hr : t.spec.clientConfigRef with
  | none => exact getQBTClientResolve_records pool t env now tcc cond hlist hcond hst
  | some refName =>
    have hsome := href refName hr
    cases hg : env.getTCC refName with
    | none =>
      rw [hg] at hsome
      simp at hsome
    | some tc =>
      simp only [hg]
      exact getQBTClientResolve_records pool t env now tcc cond hlist hcond hst

/-- C9 witness: Torrent explicitly referencing `"a"`, environment in
which `"a"` exists and is Available but its secret is missing — the
name is recorded even though resolution then fails. -/
theorem getQBTClient_records_selected_witness :
    (getQBTClient emptyPool torrentRefA envOneTCCNoSecret 0).1.status.clientConfigurationName
      = "a" ∧
    (getQBTClient emptyPool torrentRefA envOneTCCNoSecret 0).2.2 =
      .error "failed to get credentials secret \"sa\": not found" := by
  constructor
  · exact getQBTClient_records_selected emptyPool torrentRefA envOneTCCNoSecret 0 tccA
      availCond rfl rfl rfl (by
        intro rn hrn
        have h2 : some "a" = some rn := hrn
        injection h2 with h2
        subst h2
        rfl)
  · rfl

/-! ### Claim C1 (code bug) -/

/-- C1, divergence witness: the Torrent explicitly references the
*existing* configuration `"a"` (`envTwoTCCs.getTCC "a" = some tccA`),
yet because the fetched configuration is bound to a shadowed local
variable, auto-discovery still runs over the two-element list and
resolution fails with the "multiple" error instead of selecting `"a"`;
nothing is recorded in the status.  (The other half of the claim — a
reference to a *nonexistent* configuration fails with not-found even
though exactly one other configuration exists — does hold, shown in
the last conjunct.) -/
theorem explicitRef_discarded_multiple_error :
    torrentRefA.spec.clientConfigRef = some "a" ∧
    envTwoTCCs.getTCC "a" = some tccA ∧
    (getQBTClient emptyPool torrentRefA envTwoTCCs 0).2.2 =
      .error "multiple TorrentClientConfigurations found in namespace ns; set spec.clientConfigRef to select one" ∧
    (getQBTClient emptyPool torrentRefA envTwoTCCs 0).1.status.clientConfigurationName ≠ "a" ∧
    (getQBTClient emptyPool
        { torrentRefA with spec := { torrentRefA.spec with clientConfigRef := some "zz" } }
        envOneTCCNoSecret 0).2.2 =
      .error "referenced TorrentClientConfiguration \"zz\" not found: not found" := by
  refine ⟨rfl, rfl, rfl, ?_, rfl⟩
  decide

/-! ### Claim C2 (confirmed) -/

/-- C2: on the deletion path —
(a) with no recorded hash the finalizer is removed and the reconcile
completes;
(b) with a recorded hash but failed client resolution the finalizer is
removed anyway and the reconcile completes;
(c) with a recorded hash, successful resolution but a failed remote
delete, a Degraded condition with reason FailedToDeleteTorrent is set,
a fixed 10-second re-queue with nil error is returned and the
finalizers are untouched;
(d) with a successful remote delete the finalizer is removed and the
reconcile completes. -/
theorem handleDeletion_spec (pool : ClientPool) (t : Torrent) (env : TorrentEnv) (now : Nat) :
    (t.status.hash = [] →
      (handleDeletion pool t env now).1 = removeFinalizer t ∧
      TorrentFinalizer ∉ (handleDeletion pool t env now).1.finalizers ∧
      (handleDeletion pool t env now).2.2 = { requeueAfter := 0, err := none }) ∧
    (t.status.hash ≠ [] → ∀ e, (getQBTClient pool t env now).2.2 = .error e →
      (handleDeletion pool t env now).1 = removeFinalizer (getQBTClient pool t env now).1 ∧
      TorrentFinalizer ∉ (handleDeletion pool t env now).1.finalizers ∧
      (handleDeletion pool t env now).2.2 = { requeueAfter := 0, err := none }) ∧
    (t.status.hash ≠ [] → ∀ c, (getQBTClient pool t env now).2.2 = .ok c →
      ∀ e, env.deleteResult t.status.hash (t.spec.deleteFilesOnRemoval.getD true) = .error e →
      (handleDeletion pool t env now).1.finalizers = t.finalizers ∧
      (∃ cond, findStatusCondition (handleDeletion pool t env now).1.status.conditions
          typeDegraded = some cond ∧
        cond.reason = "FailedToDeleteTorrent" ∧ cond.message = e) ∧
      findStatusCondition (handleDeletion pool t env now).1.status.conditions
        typeAvailable = none ∧
      (handleDeletion pool t env now).2.2 = { requeueAfter := 10, err := none }) ∧
    (t.status.hash ≠ [] → ∀ c, (getQBTClient pool t env now).2.2 = .ok c →
      env.deleteResult t.status.hash (t.spec.deleteFilesOnRemoval.getD true) = .ok () →
      (handleDeletion pool t env now).1 = removeFinalizer (getQBTClient pool t env now).1 ∧
      TorrentFinalizer ∉ (handleDeletion pool t env now).1.finalizers ∧
      (handleDeletion pool t env now).2.2 = { requeueAfter := 0, err := none }) := by
  obtain ⟨hspec, hfin, hconds, hhash⟩ := getQBTClient_preserves pool t env now
  refine ⟨?_, ?_, ?_, ?_⟩
  · intro hh
    unfold handleDeletion
    rw [if_neg (by simp [hh])]
    exact ⟨rfl, removeFinalizer_not_mem t, rfl⟩
  · intro hh e hge
    rcases hgq : getQBTClient pool t env now with ⟨t', p', res⟩
    rw [hgq] at hge
    have hres : res = .error e := hge
    subst hres
    unfold handleDeletion
    rw [if_pos hh, hgq]
    exact ⟨rfl, removeFinalizer_not_mem t', rfl⟩
  · intro hh c hgc e hdel
    rcases hgq : getQBTClient pool t env now with ⟨t', p', res⟩
    rw [hgq] at hgc hspec hhash hfin
    have hres : res = .ok c := hgc
    subst hres
    have hhash' : t'.status.hash = t.status.hash := hhash
    have hspec' : t'.spec = t.spec := hspec
    unfold handleDeletion
    rw [if_pos hh, hgq]
    have hdel' : env.deleteResult t'.status.hash (t'.spec.deleteFilesOnRemoval.getD true) =
        .error e := by
      rw [hhash', hspec']
      exact hdel
    simp only [hdel']
    obtain ⟨havail, cond, hfind, -, -, hreason, hmsg⟩ :=
      setDegraded_facts t'.status.conditions "FailedToDeleteTorrent" e now
    have hfin' : t'.finalizers = t.finalizers := hfin
    exact ⟨hfin', ⟨cond, hfind, hreason, hmsg⟩, havail, trivial⟩
  · intro hh c hgc hdel
    rcases hgq : getQBTClient pool t env now with ⟨t', p', res⟩
    rw [hgq] at hgc hspec hhash
    have hres : res = .ok c := hgc
    subst hres
    have hhash' : t'.status.hash = t.status.hash := hhash
    have hspec' : t'.spec = t.spec := hspec
    unfold handleDeletion
    rw [if_pos hh, hgq]
    have hdel' : env.deleteResult t'.status.hash (t'.spec.deleteFilesOnRemoval.getD true) =
        .ok () := by
      rw [hhash', hspec']
      exact hdel
    simp only [hdel']
    exact ⟨trivial, removeFinalizer_not_mem t', trivial⟩

/-- C2 witness: a Torrent with a recorded hash whose namespace holds no
configuration (resolution fails) — the finalizer is removed anyway and
the reconcile completes. -/
theorem handleDeletion_spec_witness :
    (handleDeletion emptyPool torrentWithHash envNoTCC 0).1 =
      removeFinalizer (getQBTClient emptyPool torrentWithHash envNoTCC 0).1 ∧
    TorrentFinalizer ∉ (handleDeletion emptyPool torrentWithHash envNoTCC 0).1.finalizers ∧
    (handleDeletion emptyPool torrentWithHash envNoTCC 0).2.2 =
      { requeueAfter := 0, err := none } := by
  exact (handleDeletion_spec emptyPool torrentWithHash envNoTCC 0).2.1 (by decide)
    "no TorrentClientConfiguration found in namespace ns" rfl

/-! ### Claim C8 (confirmed) -/

/-- C8: in steady-state reconciliation —
(a) a resolution/session failure is recovered locally: it sets a
Degraded condition with reason ClientResolutionFailed carrying the
error text, re-queues after a fixed 15 seconds, and reports success
(nil error) to the scheduler;
(b) with a resolved client, a ParseError on the magnet URI is
propagated as the returned error with no re-queue and no condition
written. -/
theorem reconcileSteady_spec (pool : ClientPool) (t : Torrent) (env : TorrentEnv) (now : Nat) :
    (∀ e, (getQBTClient pool t env now).2.2 = .error e →
      (reconcileSteady pool t env now).2.2 = { requeueAfter := 15, err := none } ∧
      (∃ cond, findStatusCondition (reconcileSteady pool t env now).1.status.conditions
          typeDegraded = some cond ∧
        cond.reason = "ClientResolutionFailed" ∧ cond.message = e) ∧
      findStatusCondition (reconcileSteady pool t env now).1.status.conditions
        typeAvailable = none) ∧
    (∀ c pe, (getQBTClient pool t env now).2.2 = .ok c →
      GetTorrentHash t.spec.magnetURI = .error pe →
      (reconcileSteady pool t env now).2.2 = { requeueAfter := 0, err := some pe } ∧
      (reconcileSteady pool t env now).1.status.conditions = t.status.conditions) := by
  obtain ⟨hspec, hfin, hconds, hhash⟩ := getQBTClient_preserves pool t env now
  constructor
  · intro e hge
    rcases hgq : getQBTClient pool t env now with ⟨t₁, p₁, res⟩
    rw [hgq] at hge
    have hres : res = .error e := hge
    subst hres
    unfold reconcileSteady
    rw [hgq]
    obtain ⟨havail, cond, hfind, -, -, hreason, hmsg⟩ :=
      setDegraded_facts t₁.status.conditions "ClientResolutionFailed" e now
    exact ⟨rfl, ⟨cond, hfind, hreason, hmsg⟩, havail⟩
  · intro c pe hgc hparse
    rcases hgq : getQBTClient pool t env now with ⟨t₁, p₁, res⟩
    rw [hgq] at hgc hspec hconds
    have hres : res = .ok c := hgc
    subst hres
    have hspec' : t₁.spec = t.spec := hspec
    have hconds' : t₁.status.conditions = t.status.conditions := hconds
    unfold reconcileSteady
    rw [hgq]
    have hparse' : GetTorrentHash t₁.spec.magnetURI = .error pe := by
      rw [hspec']
      exact hparse
    simp only [hparse']
    exact ⟨trivial, hconds'⟩

/-- C8 witness: (a) with no configuration in the namespace the
reconcile re-queues after 15s with nil error and a
ClientResolutionFailed Degraded condition; applied at a concrete
Torrent and environment. -/
theorem reconcileSteady_spec_witness :
    (reconcileSteady emptyPool torrentNoRef envNoTCC 0).2.2 =
      { requeueAfter := 15, err := none } ∧
    (∃ cond, findStatusCondition
        (reconcileSteady emptyPool torrentNoRef envNoTCC 0).1.status.conditions
        typeDegraded = some cond ∧
      cond.reason = "ClientResolutionFailed" ∧
      cond.message = "no TorrentClientConfiguration found in namespace ns") ∧
    (reconcileSteady emptyPool torrentBadMagnet envOneTCCGood 0).2.2 =
      { requeueAfter := 0, err := some "'btih:' not found" } := by
  refine ⟨?_, ?_, ?_⟩
  · exact ((reconcileSteady_spec emptyPool torrentNoRef envNoTCC 0).1
      "no TorrentClientConfiguration found in namespace ns" rfl).1
  · exact ((reconcileSteady_spec emptyPool torrentNoRef envNoTCC 0).1
      "no TorrentClientConfiguration found in namespace ns" rfl).2.1
  · exact ((reconcileSteady_spec emptyPool torrentBadMagnet envOneTCCGood 0).2
      { id := 1, url := "http://a" } "'btih:' not found" rfl rfl).1

/-! ### String lemmas for `GetTorrentHash` -/

theorem strIndex_nil (n : Str) :
    strIndex n [] = if hasPrefixStr n [] then some 0 else none := rfl

theorem strIndex_cons (n : Str) (c : Char) (t : Str) :
    strIndex n (c :: t) =
      if hasPrefixStr n (c :: t) then some 0 else (strIndex n t).map (· + 1) := rfl

theorem hasPrefixStr_iff (n : Str) : ∀ h : Str, hasPrefixStr n h = true ↔ ∃ t, h = n ++ t := by
  induction n with
  | nil =>
    intro h
    simp [hasPrefixStr]
  | cons a as ih =>
    intro h
    cases h with
    | nil =>
      simp only [hasPrefixStr, List.cons_append]
      constructor
      · intro hp
        cases hp
      · rintro ⟨t, ht⟩
        cases ht
    | cons b bs =>
      simp only [hasPrefixStr, Bool.and_eq_true, decide_eq_true_eq, List.cons_append]
      constructor
      · rintro ⟨rfl, hp⟩
        obtain ⟨t, rfl⟩ := (ih bs).mp hp
        exact ⟨t, rfl⟩
      · rintro ⟨t, ht⟩
        injection ht with h1 h2
        exact ⟨h1.symm, (ih bs).mpr ⟨t, h2⟩⟩

theorem strIndex_some (n : Str) : ∀ (h : Str) (i : Nat), strIndex n h = some i →
    hasPrefixStr n (h.drop i) = true ∧
    ∀ j, j < i → hasPrefixStr n (h.drop j) = false := by
  intro h
  induction h with
  | nil =>
    intro i hs
    rw [strIndex_nil] at hs
    by_cases hp : hasPrefixStr n [] = true
    · rw [if_pos hp] at hs
      injection hs with hs
      subst hs
      exact ⟨hp, fun j hj => absurd hj (by omega)⟩
    · rw [if_neg hp] at hs
      cases hs
  | cons c t ih =>
    intro i hs
    rw [strIndex_cons] at hs
    by_cases hp : hasPrefixStr n (c :: t) = true
    · rw [if_pos hp] at hs
      injection hs with hs
      subst hs
      exact ⟨hp, fun j hj => absurd hj (by omega)⟩
    · rw [if_neg hp] at hs
      obtain ⟨i', hi', rfl⟩ := Option.map_eq_some'.mp hs
      obtain ⟨hp', hmin'⟩ := ih i' hi'
      refine ⟨by simpa [List.drop_succ_cons] using hp', ?_⟩
      intro j hj
      cases j with
      | zero =>
        simpa using Bool.not_eq_true _ ▸ (Bool.eq_false_iff.mpr (fun hc => hp hc))
      | succ j' =>
        rw [List.drop_succ_cons]
        exact hmin' j' (by omega)

theorem strIndex_none (n : Str) : ∀ h : Str, strIndex n h = none →
    ∀ j, hasPrefixStr n (h.drop j) = false := by
  intro h
  induction h with
  | nil =>
    intro hs j
    rw [strIndex_nil] at hs
    by_cases hp : hasPrefixStr n [] = true
    · rw [if_pos hp] at hs
      cases hs
    · simpa [List.drop_nil] using Bool.eq_false_iff.mpr (fun hc => hp hc)
  | cons c t ih =>
    intro hs j
    rw [strIndex_cons] at hs
    by_cases hp : hasPrefixStr n (c :: t) = true
    · rw [if_pos hp] at hs
      cases hs
    · rw [if_neg hp] at hs
      have hnone : strIndex n t = none := by
        cases hx : strIndex n t with
        | none => rfl
        | some x =>
          rw [hx] at hs
          cases hs
      cases j with
      | zero => exact Bool.eq_false_iff.mpr (fun hc => hp hc)
      | succ j' =>
        rw [List.drop_succ_cons]
        exact ih hnone j'

theorem strIndex_of_first (n h : Str) (i : Nat)
    (hp : hasPrefixStr n (h.drop i) = true)
    (hmin : ∀ j, j < i → hasPrefixStr n (h.drop j) = false) :
    strIndex n h = some i := by
  cases hsi : strIndex n h with
  | none =>
    have := strIndex_none n h hsi i
    rw [hp] at this
    cases this
  | some i' =>
    obtain ⟨hp', hmin'⟩ := strIndex_some n h i' hsi
    rcases Nat.lt_trichotomy i i' with hlt | heq | hgt
    · have := hmin' i hlt
      rw [hp] at this
      cases this
    · rw [heq]
    · have := hmin i' hgt
      rw [hp'] at this
      cases this

theorem mem_take_imp_drop (c : Char) : ∀ (l : Str) (j : Nat), c ∈ l.take j →
    ∃ k, k < j ∧ ∃ u, l.drop k = c :: u := by
  intro l
  induction l with
  | nil =>
    intro j hm
    simp at hm
  | cons a t ih =>
    intro j hm
    cases j with
    | zero => simp at hm
    | succ j' =>
      rw [List.take_succ_cons] at hm
      rcases List.mem_cons.mp hm with rfl | hm'
      · exact ⟨0, by omega, t, rfl⟩
      · obtain ⟨k, hk, u, hu⟩ := ih j' hm'
        exact ⟨k + 1, by omega, u, by rwa [List.drop_succ_cons]⟩

theorem hasPrefixStr_single (c : Char) (l : Str) :
    hasPrefixStr [c] l = true ↔ ∃ u, l = c :: u := by
  rw [hasPrefixStr_iff]
  constructor
  · rintro ⟨u, rfl⟩
    exact ⟨u, rfl⟩
  · rintro ⟨u, rfl⟩
    exact ⟨u, rfl⟩

theorem amp_not_mem_take (rest : Str) (j : Nat)
    (hmin : ∀ k, k < j → hasPrefixStr ['&'] (rest.drop k) = false) :
    '&' ∉ rest.take j := by
  intro hm
  obtain ⟨k, hk, u, hu⟩ := mem_take_imp_drop '&' rest j hm
  have hfalse := hmin k hk
  rw [hu] at hfalse
  simp [hasPrefixStr] at hfalse

theorem amp_not_mem_of_none (rest : Str) (hnone : strIndex ['&'] rest = none) :
    '&' ∉ rest := by
  intro hm
  have hall := strIndex_none _ _ hnone
  obtain ⟨k, hk, u, hu⟩ := mem_take_imp_drop '&' rest rest.length
    (by simpa [List.take_length] using hm)
  have hfalse := hall k
  rw [hu] at hfalse
  simp [hasPrefixStr] at hfalse

/-! ### Claim C7 (confirmed) -/

/-- C7: `GetTorrentHash` —
(a) when the marker `btih:` occurs nowhere in the descriptor, the
result is the "'btih:' not found" ParseError;
(b) when the first occurrence of the marker ends the string (nothing
after it), the result is the "no hash after 'btih:'" ParseError;
(c) when the first occurrence of the marker has at least one character
after it, extraction succeeds;
(d) every successful extraction returns exactly the characters
strictly after the first marker occurrence up to the next `&`
(exclusive) or the end of the string: the returned hash contains no
`&`, and the suffix after the marker is the hash itself or the hash
followed by `&` and a tail;
(e) concretely, `"magnet:?xt=urn:btih:ABCD&dn=x"` yields `"ABCD"` and
a descriptor without the marker fails. -/
theorem GetTorrentHash_spec :
    (∀ s : Str, (∀ j, j ≤ s.length → hasPrefixStr btihMarker (s.drop j) = false) →
      GetTorrentHash s = .error "'btih:' not found") ∧
    (∀ (s : Str) (i : Nat), hasPrefixStr btihMarker (s.drop i) = true →
      (∀ j, j < i → hasPrefixStr btihMarker (s.drop j) = false) →
      i + 5 ≥ s.length →
      GetTorrentHash s = .error "no hash after 'btih:'") ∧
    (∀ (s : Str) (i : Nat), hasPrefixStr btihMarker (s.drop i) = true →
      (∀ j, j < i → hasPrefixStr btihMarker (s.drop j) = false) →
      i + 5 < s.length →
      ∃ h, GetTorrentHash s = .ok h) ∧
    (∀ (s h : Str), GetTorrentHash s = .ok h →
      ∃ i, hasPrefixStr btihMarker (s.drop i) = true ∧
        (∀ j, j < i → hasPrefixStr btihMarker (s.drop j) = false) ∧
        '&' ∉ h ∧
        (s.drop (i + 5) = h ∨ ∃ u, s.drop (i + 5) = h ++ '&' :: u)) ∧
    (GetTorrentHash "magnet:?xt=urn:btih:ABCD&dn=x".toList = .ok "ABCD".toList ∧
     GetTorrentHash "magnet:?xt=urn:xyz".toList = .error "'btih:' not found") := by
  have hmarker_nil : hasPrefixStr btihMarker [] = false := by decide
  refine ⟨?_, ?_, ?_, ?_, by decide, by decide⟩
  · intro s hall
    have hnone : strIndex btihMarker s = none := by
      cases hsi : strIndex btihMarker s with
      | none => rfl
      | some i =>
        obtain ⟨hp, -⟩ := strIndex_some _ _ _ hsi
        by_cases hi : i ≤ s.length
        · rw [hall i hi] at hp
          cases hp
        · have hdrop : s.drop i = [] := List.drop_eq_nil_of_le (by omega)
          rw [hdrop, hmarker_nil] at hp
          cases hp
    simp only [GetTorrentHash, hnone]
  · intro s i hp hmin hge
    have hsi := strIndex_of_first _ _ _ hp hmin
    simp only [GetTorrentHash, hsi]
    rw [if_pos hge]
  · intro s i hp hmin hlt
    have hsi := strIndex_of_first _ _ _ hp hmin
    simp only [GetTorrentHash, hsi]
    rw [if_neg (by omega)]
    cases hamp : strIndex ['&'] (s.drop (i + 5)) with
    | none =>
      simp only [hamp]
      exact ⟨_, rfl⟩
    | some j =>
      simp only [hamp]
      exact ⟨_, rfl⟩
  · intro s h hok
    cases hsi : strIndex btihMarker s with
    | none =>
      simp only [GetTorrentHash, hsi] at hok
      exact absurd hok (by simp)
    | some i =>
      simp only [GetTorrentHash, hsi] at hok
      obtain ⟨hp, hmin⟩ := strIndex_some _ _ _ hsi
      by_cases hge : i + 5 ≥ s.length
      · rw [if_pos hge] at hok
        cases hok
      · rw [if_neg hge] at hok
        cases hamp : strIndex ['&'] (s.drop (i + 5)) with
        | none =>
          rw [hamp] at hok
          injection hok with hok
          subst hok
          exact ⟨i, hp, hmin, amp_not_mem_of_none _ hamp, Or.inl rfl⟩
        | some j =>
          rw [hamp] at hok
          injection hok with hok
          subst hok
          obtain ⟨hpj, hminj⟩ := strIndex_some _ _ _ hamp
          obtain ⟨u, hu⟩ := (hasPrefixStr_single '&' _).mp hpj
          have heq : s.drop (i + 5) = (s.drop (i + 5)).take j ++ '&' :: u := by
            rw [← hu]
            exact (List.take_append_drop j (s.drop (i + 5))).symm
          exact ⟨i, hp, hmin, amp_not_mem_take _ _ hminj, Or.inr ⟨u, heq⟩⟩

/-- C7 witness: the error case (b) applied at the descriptor
`"xbtih:"` whose first marker occurrence ends the string, and the
no-marker case (a) applied at `"abc"`. -/
theorem GetTorrentHash_spec_witness :
    GetTorrentHash "xbtih:".toList = .error "no hash after 'btih:'" ∧
    GetTorrentHash "abc".toList = .error "'btih:' not found" := by
  constructor
  · exact GetTorrentHash_spec.2.1 "xbtih:".toList 1 (by decide) (by decide) (by decide)
  · exact GetTorrentHash_spec.1 "abc".toList (by decide)

end QBT
